import Mathlib

/-!
Verification of the SnapLaw risk-clause detection and scoring engine
(`utils.py`: `RISK_PATTERNS`, `detect_risk_clauses`,
`calculate_complexity_score`, `calculate_risk_score`).

Texts are modelled as `List Char` (Python string indices are character
offsets).  The regular expressions appearing in `RISK_PATTERNS` use only
three constructs — literal characters, `.*` and a single optional
character `c?` — so patterns are modelled as token lists and the matcher
implements the Python greedy backtracking semantics for exactly that
fragment (`.` does not match a newline, `re.IGNORECASE` compares
characters through `Char.toLower`).  Scores are modelled over `ℚ`.
-/

namespace SnapLaw

/-- A compiled regex token: literal character, optional character (`c?`),
or `.*` (greedy, any characters except newline). -/
inductive Tok where
  | lit (c : Char)
  | opt (c : Char)
  | star
deriving DecidableEq, Repr

/-- Literal pattern text, as in a Python regex with no metacharacters. -/
def lits (s : String) : List Tok := s.toList.map Tok.lit

/-- Greedy backtracking matcher: `matchEnd p xs = some n` when pattern `p`
matches a prefix of `xs` of length `n`; the length returned is the one
the Python engine produces (greedy `*` and `?`, full backtracking).
Character comparison is case-insensitive (`re.IGNORECASE`). -/
def matchEnd : List Tok → List Char → Option Nat
  | [], _ => some 0
  | Tok.lit _ :: _, [] => none
  | Tok.lit c :: ts, x :: xs =>
      if x.toLower = c.toLower then (matchEnd ts xs).map (· + 1) else none
  | Tok.opt _ :: ts, [] => matchEnd ts []
  | Tok.opt c :: ts, x :: xs =>
      if x.toLower = c.toLower then
        match matchEnd ts xs with
        | some n => some (n + 1)
        | none => matchEnd ts (x :: xs)
      else matchEnd ts (x :: xs)
  | Tok.star :: ts, xs =>
      ((List.range ((xs.takeWhile (fun c => c ≠ '\n')).length + 1)).reverse).findSome?
        (fun k => (matchEnd ts (xs.drop k)).map (k + ·))

/-- First match of `p` in `text` at a start position `≥ pos`, as a
half-open span `(start, end)` — the behaviour of the Python scanner. -/
def findFrom (p : List Tok) (text : List Char) (pos : Nat) : Option (Nat × Nat) :=
  (List.range (text.length + 1 - pos)).findSome?
    (fun d => (matchEnd p (text.drop (pos + d))).map (fun n => (pos + d, pos + d + n)))

/-- Successive non-overlapping matches from position `pos`, with enough
fuel to cover every start position (`re.finditer` semantics). -/
def finditerAux (p : List Tok) (text : List Char) : Nat → Nat → List (Nat × Nat)
  | _, 0 => []
  | pos, fuel + 1 =>
      match findFrom p text pos with
      | none => []
      | some (s, e) => (s, e) :: finditerAux p text (if s < e then e else s + 1) fuel

/-- All non-overlapping matches of `p` in `text`, left to right
(`re.finditer(pattern, text, re.IGNORECASE)`). -/
def finditer (p : List Tok) (text : List Char) : List (Nat × Nat) :=
  finditerAux p text 0 (text.length + 1)

/-- One entry of the `RISK_PATTERNS` table: patterns, display type,
severity and explanation. -/
structure RiskInfo where
  patterns : List (List Tok)
  type : String
  severity : String
  explanation : String
deriving DecidableEq, Repr

/-- The `RISK_PATTERNS` catalog of `utils.py`, in dict insertion order. -/
def RISK_PATTERNS : List (String × RiskInfo) := [
  ("binding_arbitration",
   { patterns := [
       lits "binding arbitration", lits "arbitration clause",
       lits "waive" ++ [Tok.star] ++ lits "right" ++ [Tok.star] ++ lits "jury trial",
       lits "resolve" ++ [Tok.star] ++ lits "disputes" ++ [Tok.star] ++ lits "arbitration",
       lits "mandatory arbitration"],
     type := "Binding Arbitration",
     severity := "High",
     explanation := "You may be giving up your right to sue in court and must resolve disputes through arbitration." }),
  ("non_refundable",
   { patterns := [
       lits "non-refundable", lits "no refund" ++ [Tok.opt 's'], lits "all sales final",
       lits "payment" ++ [Tok.opt 's', Tok.star] ++ lits "not" ++ [Tok.star] ++ lits "refund",
       lits "fees are final"],
     type := "Non-refundable",
     severity := "Medium",
     explanation := "You may not be able to get your money back under any circumstances." }),
  ("automatic_renewal",
   { patterns := [
       lits "automatic" ++ [Tok.star] ++ lits "renewal",
       lits "auto" ++ [Tok.star] ++ lits "renew",
       lits "automatically" ++ [Tok.star] ++ lits "extend",
       lits "renew" ++ [Tok.star] ++ lits "unless" ++ [Tok.star] ++ lits "cancel",
       lits "auto-renewal"],
     type := "Auto-renewal",
     severity := "Medium",
     explanation := "The contract will automatically renew unless you actively cancel it." }),
  ("liability_waiver",
   { patterns := [
       lits "waive" ++ [Tok.star] ++ lits "liability",
       lits "not" ++ [Tok.star] ++ lits "liable" ++ [Tok.star] ++ lits "damages",
       lits "disclaim" ++ [Tok.star] ++ lits "warranties",
       lits "use" ++ [Tok.star] ++ lits "at" ++ [Tok.star] ++ lits "own" ++ [Tok.star] ++ lits "risk",
       lits "hold harmless"],
     type := "Liability Waiver",
     severity := "High",
     explanation := "The company may not be responsible for damages or problems that occur." }),
  ("data_collection",
   { patterns := [
       lits "collect" ++ [Tok.star] ++ lits "personal" ++ [Tok.star] ++ lits "data",
       lits "share" ++ [Tok.star] ++ lits "information" ++ [Tok.star] ++ lits "third" ++ [Tok.star] ++ lits "parties",
       lits "sell" ++ [Tok.star] ++ lits "data",
       lits "tracking" ++ [Tok.star] ++ lits "cookies",
       lits "personal information"],
     type := "Data Collection",
     severity := "Medium",
     explanation := "Your personal information may be collected, stored, or shared with other companies." }),
  ("termination_rights",
   { patterns := [
       lits "terminate" ++ [Tok.star] ++ lits "at" ++ [Tok.star] ++ lits "will",
       lits "suspend" ++ [Tok.star] ++ lits "account" ++ [Tok.star] ++ lits "any" ++ [Tok.star] ++ lits "time",
       lits "discontinue" ++ [Tok.star] ++ lits "service" ++ [Tok.star] ++ lits "notice",
       lits "modify" ++ [Tok.star] ++ lits "terms" ++ [Tok.star] ++ lits "without" ++ [Tok.star] ++ lits "notice"],
     type := "Unfair Termination",
     severity := "High",
     explanation := "The company can end the agreement or change terms with little or no notice." })]

/-- A risk-clause finding, as the dict appended by `detect_risk_clauses`. -/
structure Finding where
  text : List Char
  type : String
  severity : String
  explanation : String
deriving DecidableEq, Repr

/-- Index of the first `'.'` in a list, if any (`str.find` semantics on a
suffix). -/
def findIdxDot : List Char → Option Nat
  | [] => none
  | c :: cs => if c = '.' then some 0 else (findIdxDot cs).map (· + 1)

/-- Index of the last `'.'` in a list, if any (`str.rfind` semantics on a
prefix). -/
def rfindIdxDot : List Char → Option Nat
  | [] => none
  | c :: cs =>
      match rfindIdxDot cs with
      | some j => some (j + 1)
      | none => if c = '.' then some 0 else none

/-- `max(0, text.rfind('.', 0, s) + 1)`: start of the sentence enclosing a
match beginning at offset `s`. -/
def sentStart (text : List Char) (s : Nat) : Nat :=
  match rfindIdxDot (text.take s) with
  | some i => i + 1
  | none => 0

/-- `text.find('.', e)`, with `-1` replaced by `len(text)`: end of the
sentence enclosing a match ending at offset `e`. -/
def sentEnd (text : List Char) (e : Nat) : Nat :=
  match findIdxDot (text.drop e) with
  | some j => e + j
  | none => text.length

/-- Python slice `text[a:b]`. -/
def extract (text : List Char) (a b : Nat) : List Char := (text.take b).drop a

/-- Python `str.strip()`: remove leading and trailing whitespace. -/
def strip (s : List Char) : List Char :=
  ((s.dropWhile Char.isWhitespace).reverse.dropWhile Char.isWhitespace).reverse

/-- Stripped enclosing sentence for a match span, extracted from the
original (un-lowercased) text. -/
def sentenceFor (text : List Char) (span : Nat × Nat) : List Char :=
  strip (extract text (sentStart text span.1) (sentEnd text span.2))

/-- Inner match loop of `detect_risk_clauses`: walk the matches of one
pattern in order and return the sentence of the first match whose
stripped sentence is longer than 20 characters (the `break` sits inside
the length test, so shorter matches are skipped, not terminal). -/
def firstQualifying (text : List Char) : List (Nat × Nat) → Option (List Char)
  | [] => none
  | span :: rest =>
      let sentence := sentenceFor text span
      if 20 < sentence.length then some sentence else firstQualifying text rest

/-- The finding one pattern contributes for a document, if any. -/
def patternFinding (text text_lower : List Char) (info : RiskInfo) (p : List Tok) :
    Option Finding :=
  (firstQualifying text (finditer p text_lower)).map
    (fun sentence =>
      { text := sentence, type := info.type, severity := info.severity,
        explanation := info.explanation })

/-- `detect_risk_clauses(text)`: scan the lowercased text with every
pattern of every catalog entry, appending at most one finding per
pattern. -/
def detect_risk_clauses (text : List Char) : List Finding :=
  let text_lower := text.map Char.toLower
  RISK_PATTERNS.flatMap
    (fun kri => kri.2.patterns.filterMap (patternFinding text text_lower kri.2))

/-- Python `str.split()`: split on runs of whitespace, no empty pieces. -/
def pySplit : List Char → List (List Char)
  | [] => []
  | c :: cs =>
      if c.isWhitespace then pySplit cs
      else
        match cs with
        | [] => [[c]]
        | c2 :: _ =>
            if c2.isWhitespace then [c] :: pySplit cs
            else
              match pySplit cs with
              | h :: t => (c :: h) :: t
              | [] => [[c]]

/-- Is a character a sentence separator for `re.split(r'[.!?]+', text)`? -/
def isSentSep (c : Char) : Bool := c = '.' || c = '!' || c = '?'

/-- `re.split(r'[.!?]+', text)`: split on maximal runs of `.`, `!`, `?`,
keeping (possibly empty) fragments. -/
def splitSent : List Char → List (List Char)
  | [] => [[]]
  | c :: cs =>
      if isSentSep c then
        match cs with
        | [] => [[], []]
        | c2 :: _ => if isSentSep c2 then splitSent cs else [] :: splitSent cs
      else
        match splitSent cs with
        | h :: t => (c :: h) :: t
        | [] => [[c]]

/-- The non-empty stripped sentence fragments of a text
(`[s.strip() for s in sentences if s.strip()]`). -/
def sentencesOf (text : List Char) : List (List Char) :=
  ((splitSent text).map strip).filter (fun s => !s.isEmpty)

/-- The fixed legal-jargon vocabulary of `calculate_complexity_score`. -/
def legal_terms : List (List Char) :=
  ["whereas", "heretofore", "hereinafter", "notwithstanding", "aforementioned",
   "pursuant", "thereof", "hereby", "hereunder", "indemnify", "covenant",
   "warranty", "liability", "jurisdiction", "arbitration", "severability",
   "consideration", "breach", "termination", "governing", "enforceable"].map
    String.toList

/-- `calculate_complexity_score(text)`, over `ℚ`. -/
def calculate_complexity_score (text : List Char) : ℚ :=
  let words := pySplit text
  let sentences := sentencesOf text
  if sentences = [] then 1
  else
    let avg_words_per_sentence : ℚ := (words.length : ℚ) / (sentences.length : ℚ)
    let legal_term_count :=
      (words.filter (fun w => legal_terms.contains (w.map Char.toLower))).length
    let legal_density : ℚ :=
      if words = [] then 0 else ((legal_term_count : ℚ) / (words.length : ℚ)) * 100
    let sentence_complexity := min (avg_words_per_sentence / 15) 2
    let term_complexity := min (legal_density / 2) 2
    min ((sentence_complexity + term_complexity) * (5 / 2)) 10

/-- The severity-weight accumulation loop of `calculate_risk_score`. -/
def clause_risk : List Finding → ℚ
  | [] => 0
  | c :: rest =>
      (if c.severity = "High" then 3 else if c.severity = "Medium" then 2 else 1) +
        clause_risk rest

/-- `calculate_risk_score(risk_clauses, complexity, word_count)`, over `ℚ`. -/
def calculate_risk_score (risk_clauses : List Finding) (complexity : ℚ)
    (word_count : Nat) : ℚ :=
  let cr := clause_risk risk_clauses
  let length_factor : ℚ := min ((word_count : ℚ) / 1000) 2
  let complexity_factor : ℚ := complexity / 10
  min (cr * (6 / 10) + length_factor * (2 / 10) + complexity_factor * (2 / 10)) 10

/-! ### Helper lemmas -/

lemma clause_risk_append (l₁ l₂ : List Finding) :
    clause_risk (l₁ ++ l₂) = clause_risk l₁ + clause_risk l₂ := by
  induction l₁ with
  | nil => simp [clause_risk]
  | cons a l ih => simp [clause_risk, ih]; ring

/-- The severity weight as §4.4 of the spec words it (junk value 0 outside
the three documented severities; C2 is stated under the hypothesis that
every severity is one of the three). -/
def specWeight (s : String) : ℚ :=
  if s = "High" then 3 else if s = "Medium" then 2 else if s = "Low" then 1 else 0

lemma clause_risk_eq_sum_specWeight :
    ∀ (l : List Finding),
      (∀ f ∈ l, f.severity = "High" ∨ f.severity = "Medium" ∨ f.severity = "Low") →
      clause_risk l = (l.map (fun f => specWeight f.severity)).sum := by
  intro l hl
  induction l with
  | nil => simp [clause_risk]
  | cons a t ih =>
    have ha := hl a (by simp)
    have ht : ∀ f ∈ t, f.severity = "High" ∨ f.severity = "Medium" ∨ f.severity = "Low" :=
      fun f hf => hl f (List.mem_cons_of_mem _ hf)
    simp only [clause_risk, List.map_cons, List.sum_cons, ih ht]
    congr 1
    unfold specWeight
    rcases ha with h | h | h <;> simp [h]

/-! ### C1 — complexity score bounds -/

/-- C1 (amended): for every text, `calculate_complexity_score` lies in
`[0, 10]`.  The documented lower bound 1.0 holds only through the
zero-sentence branch; a text with at least one sentence can score below
1.0 (see the counterexample). -/
theorem complexity_score_bounds (text : List Char) :
    0 ≤ calculate_complexity_score text ∧ calculate_complexity_score text ≤ 10 := by
  unfold calculate_complexity_score
  by_cases h : sentencesOf text = []
  · simp [h]
  · simp only [h, if_false, reduceIte]
    constructor
    · apply le_min _ (by norm_num)
      have h1 : (0 : ℚ) ≤ min ((((pySplit text).length : ℚ) / ((sentencesOf text).length : ℚ)) / 15) 2 := by
        apply le_min _ (by norm_num)
        positivity
      have h2 : (0 : ℚ) ≤ min ((if pySplit text = [] then (0 : ℚ) else ((((pySplit text).filter (fun w => legal_terms.contains (w.map Char.toLower))).length : ℚ) / ((pySplit text).length : ℚ)) * 100) / 2) 2 := by
        apply le_min _ (by norm_num)
        split <;> positivity
      nlinarith
    · exact min_le_right _ _

/-- C1 counterexample: the single-sentence text `"a"` has a sentence, yet
its complexity score is `1/6 < 1`, outside the documented `[1.0, 10.0]`
range. -/
theorem complexity_score_lt_one_cex :
    sentencesOf ['a'] ≠ [] ∧ calculate_complexity_score ['a'] < 1 := by
  refine ⟨by decide, ?_⟩
  simp only [calculate_complexity_score]
  rw [if_neg (by decide : ¬ sentencesOf ['a'] = [])]
  rw [show pySplit ['a'] = [['a']] from by decide,
      show sentencesOf ['a'] = [['a']] from by decide,
      show List.filter (fun w => legal_terms.contains (w.map Char.toLower)) [['a']] = []
        from by decide]
  norm_num [min_def]

/-! ### C2 — risk score formula -/

/-- C2: `calculate_risk_score` is exactly
`min(0.6·Σ weight(severity) + 0.2·min(word_count/1000, 2) + 0.2·(complexity/10), 10)`
with weights High=3, Medium=2, Low=1, and the formula applies no lower
clamp: the all-empty input computes to 0. -/
theorem risk_score_formula (fs : List Finding) (c : ℚ) (w : Nat)
    (h : ∀ f ∈ fs, f.severity = "High" ∨ f.severity = "Medium" ∨ f.severity = "Low") :
    calculate_risk_score fs c w =
      min ((6 / 10) * (fs.map (fun f => specWeight f.severity)).sum +
           (2 / 10) * min ((w : ℚ) / 1000) 2 + (2 / 10) * (c / 10)) 10 ∧
    calculate_risk_score [] 0 0 = 0 := by
  constructor
  · unfold calculate_risk_score
    rw [clause_risk_eq_sum_specWeight fs h]
    ring_nf
  · norm_num [calculate_risk_score, clause_risk]

/-- A sample High-severity finding used by the C2 witness. -/
def sampleHigh : Finding :=
  { text := [], type := "Binding Arbitration", severity := "High", explanation := "" }

/-- Witness for C2 at a concrete input. -/
theorem risk_score_formula_witness :
    (∀ f ∈ [sampleHigh],
        f.severity = "High" ∨ f.severity = "Medium" ∨ f.severity = "Low") ∧
    (calculate_risk_score [sampleHigh] 5 100 =
      min ((6 / 10) * (([sampleHigh]).map (fun f => specWeight f.severity)).sum +
           (2 / 10) * min ((100 : ℚ) / 1000) 2 + (2 / 10) * ((5 : ℚ) / 10)) 10 ∧
      calculate_risk_score [] 0 0 = 0) :=
  ⟨by decide, risk_score_formula _ 5 100 (by decide)⟩

/-! ### C7 — appending a High finding never decreases the risk score -/

/-- C7: appending one additional High-severity finding never decreases
`calculate_risk_score`. -/
theorem risk_score_append_high_mono (fs : List Finding) (c : ℚ) (w : Nat)
    (txt : List Char) (ty ex : String) :
    calculate_risk_score fs c w ≤
      calculate_risk_score
        (fs ++ [{ text := txt, type := ty, severity := "High", explanation := ex }]) c w := by
  unfold calculate_risk_score
  have hcr : clause_risk
      (fs ++ [{ text := txt, type := ty, severity := "High", explanation := ex }]) =
      clause_risk fs + 3 := by
    rw [clause_risk_append]; simp [clause_risk]
  rw [hcr]
  apply min_le_min _ le_rfl
  have h0 : (0 : ℚ) ≤ 3 * (6 / 10) := by norm_num
  nlinarith

/-! ### C9 — unknown severities weigh 1, like Low -/

/-- C9: a finding whose severity is neither "High" nor "Medium"
contributes weight 1 to `calculate_risk_score`, the same as "Low". -/
theorem risk_score_default_severity (f : Finding) (fs : List Finding) (c : ℚ) (w : Nat)
    (h1 : f.severity ≠ "High") (h2 : f.severity ≠ "Medium") :
    clause_risk (f :: fs) = 1 + clause_risk fs ∧
    calculate_risk_score (f :: fs) c w =
      calculate_risk_score ({ f with severity := "Low" } :: fs) c w := by
  have hw : clause_risk (f :: fs) = 1 + clause_risk fs := by
    simp [clause_risk, h1, h2]
  refine ⟨hw, ?_⟩
  unfold calculate_risk_score
  rw [hw]
  have hlow : clause_risk ({ f with severity := "Low" } :: fs) = 1 + clause_risk fs := by
    simp [clause_risk]
  rw [hlow]

/-- Witness for C9: a malformed severity string "Critical". -/
theorem risk_score_default_severity_witness :
    (({ text := [], type := "T", severity := "Critical", explanation := "" } : Finding).severity ≠ "High" ∧
     ({ text := [], type := "T", severity := "Critical", explanation := "" } : Finding).severity ≠ "Medium") ∧
    (clause_risk [{ text := [], type := "T", severity := "Critical", explanation := "" }] =
        1 + clause_risk [] ∧
     calculate_risk_score [{ text := [], type := "T", severity := "Critical", explanation := "" }] 2 50 =
        calculate_risk_score [{ text := [], type := "T", severity := "Low", explanation := "" }] 2 50) :=
  ⟨⟨by decide, by decide⟩,
   risk_score_default_severity
     { text := [], type := "T", severity := "Critical", explanation := "" } [] 2 50
     (by decide) (by decide)⟩

/-! ### Detection helper lemmas -/

lemma dropWhile_eq_self_of_head {α : Type} {p : α → Bool} {l : List α}
    (h : ∀ x, l.head? = some x → p x = false) : l.dropWhile p = l := by
  cases l with
  | nil => rfl
  | cons a t => rw [List.dropWhile_cons, if_neg]; simp [h a rfl]

lemma dropWhile_idem {α : Type} {p : α → Bool} (l : List α) :
    (l.dropWhile p).dropWhile p = l.dropWhile p := by
  apply dropWhile_eq_self_of_head
  intro x hx
  have hh := List.head?_dropWhile_not p l
  rw [hx] at hh
  exact hh

lemma strip_idem (s : List Char) : strip (strip s) = strip s := by
  unfold strip
  set u := s.dropWhile Char.isWhitespace with hu
  set v := u.reverse.dropWhile Char.isWhitespace with hv
  have hpre : v.reverse <+: u := by
    have h1 : v <:+ u.reverse := List.dropWhile_suffix _
    have h2 := List.reverse_prefix.mpr h1
    rwa [List.reverse_reverse] at h2
  have hB : v.reverse.dropWhile Char.isWhitespace = v.reverse := by
    apply dropWhile_eq_self_of_head
    intro x hx
    obtain ⟨r, hr⟩ := hpre
    cases hvr : v.reverse with
    | nil => rw [hvr] at hx; simp at hx
    | cons y t =>
      rw [hvr] at hx
      simp only [List.head?_cons, Option.some.injEq] at hx
      subst hx
      rw [hvr] at hr
      have hu_head : u.head? = some y := by rw [← hr]; simp
      have hh := List.head?_dropWhile_not Char.isWhitespace s
      rw [← hu, hu_head] at hh
      exact hh
  rw [hB, List.reverse_reverse, dropWhile_idem]

lemma firstQualifying_spec (text : List Char) (spans : List (Nat × Nat))
    (h : ∃ sp ∈ spans, 20 < (sentenceFor text sp).length) :
    ∃ before sp after, spans = before ++ sp :: after ∧
      (∀ sp' ∈ before, (sentenceFor text sp').length ≤ 20) ∧
      20 < (sentenceFor text sp).length ∧
      firstQualifying text spans = some (sentenceFor text sp) := by
  induction spans with
  | nil => obtain ⟨sp, hm, -⟩ := h; simp at hm
  | cons a rest ih =>
    by_cases ha : 20 < (sentenceFor text a).length
    · exact ⟨[], a, rest, rfl, by simp, ha, by simp [firstQualifying, ha]⟩
    · have h' : ∃ sp ∈ rest, 20 < (sentenceFor text sp).length := by
        obtain ⟨sp, hsp, hl⟩ := h
        rcases List.mem_cons.mp hsp with rfl | hm
        · exact absurd hl ha
        · exact ⟨sp, hm, hl⟩
      obtain ⟨b, sp, af, heq, hb, hl, hfq⟩ := ih h'
      refine ⟨a :: b, sp, af, by rw [heq]; rfl, ?_, hl, ?_⟩
      · intro sp' hsp'
        rcases List.mem_cons.mp hsp' with rfl | hm
        · omega
        · exact hb sp' hm
      · simp [firstQualifying, ha, hfq]

lemma firstQualifying_eq_some {text : List Char} :
    ∀ {spans : List (Nat × Nat)} {s : List Char},
      firstQualifying text spans = some s →
      ∃ sp ∈ spans, s = sentenceFor text sp ∧ 20 < s.length := by
  intro spans
  induction spans with
  | nil => intro s h; simp [firstQualifying] at h
  | cons a rest ih =>
    intro s h
    simp only [firstQualifying] at h
    split_ifs at h with ha
    · rw [Option.some.injEq] at h
      exact ⟨a, by simp, h.symm, h ▸ ha⟩
    · obtain ⟨sp, hm, hs, hl⟩ := ih h
      exact ⟨sp, List.mem_cons_of_mem _ hm, hs, hl⟩

lemma mem_detect {text : List Char} {f : Finding} (h : f ∈ detect_risk_clauses text) :
    ∃ kri ∈ RISK_PATTERNS, ∃ p ∈ kri.2.patterns,
      patternFinding text (text.map Char.toLower) kri.2 p = some f := by
  simp only [detect_risk_clauses] at h
  rw [List.mem_flatMap] at h
  obtain ⟨kri, hk, hf⟩ := h
  rw [List.mem_filterMap] at hf
  obtain ⟨p, hp, hpf⟩ := hf
  exact ⟨kri, hk, p, hp, hpf⟩

lemma flatMap_filterMap_length_le (text tl : List Char) (L : List (String × RiskInfo)) :
    (L.flatMap (fun kri => kri.2.patterns.filterMap (patternFinding text tl kri.2))).length ≤
      (L.map (fun kri => kri.2.patterns.length)).sum := by
  induction L with
  | nil => simp
  | cons a l ih =>
    simp only [List.flatMap_cons, List.length_append, List.map_cons, List.sum_cons]
    have hle := List.length_filterMap_le (patternFinding text tl a.2) a.2.patterns
    omega

/-! ### C4 — at most one finding per pattern, so at most 29 findings -/

/-- C4: `detect_risk_clauses` yields at most one finding per pattern, so
its result length is bounded by the total pattern count of the catalog, which
is 29 for the shipped `RISK_PATTERNS`. -/
theorem detect_length_le_patternCount (text : List Char) :
    (detect_risk_clauses text).length ≤
      (RISK_PATTERNS.map (fun kri => kri.2.patterns.length)).sum ∧
    (RISK_PATTERNS.map (fun kri => kri.2.patterns.length)).sum = 29 := by
  refine ⟨?_, by decide⟩
  simp only [detect_risk_clauses]
  exact flatMap_filterMap_length_le text (text.map Char.toLower) RISK_PATTERNS

/-! ### C5 — the sentence of every finding is longer than 20 characters -/

/-- C5: every finding returned by `detect_risk_clauses` has a matched
sentence whose trimmed length exceeds 20 characters (and the stored
sentence is already trimmed). -/
theorem detect_finding_text_long (text : List Char) (f : Finding)
    (h : f ∈ detect_risk_clauses text) :
    20 < (strip f.text).length ∧ strip f.text = f.text := by
  obtain ⟨kri, -, p, -, hpf⟩ := mem_detect h
  simp only [patternFinding, Option.map_eq_some'] at hpf
  obtain ⟨sent, hq, hf⟩ := hpf
  obtain ⟨sp, -, hs, hl⟩ := firstQualifying_eq_some hq
  have htext : f.text = sent := by rw [← hf]
  have hstrip : strip sent = sent := by
    rw [hs]; exact strip_idem _
  rw [htext, hstrip]
  exact ⟨hl, rfl⟩

/-- Concrete text for the C5 witness. -/
def c5Text : List Char := "You agree to binding arbitration today.".toList

/-- Concrete finding for the C5 witness. -/
def c5Finding : Finding :=
  { text := "You agree to binding arbitration today".toList,
    type := "Binding Arbitration", severity := "High",
    explanation := "You may be giving up your right to sue in court and must resolve disputes through arbitration." }

/-- Witness for C5. -/
theorem detect_finding_text_long_witness :
    c5Finding ∈ detect_risk_clauses c5Text ∧
    (20 < (strip c5Finding.text).length ∧ strip c5Finding.text = c5Finding.text) :=
  ⟨by decide, detect_finding_text_long c5Text c5Finding (by decide)⟩

/-! ### C3 — a discarded short-sentence match is not terminal -/

/-- Text whose first "hold harmless" match sits in a short sentence while
a later match of the same pattern sits in a long one. -/
def c3Text : List Char :=
  "We hold harmless. You must hold harmless the company at all times.".toList

/-- The "hold harmless" pattern of the liability_waiver category. -/
def c3Pattern : List Tok := lits "hold harmless"

/-- C3 counterexample: the first match of "hold harmless" in `c3Text` has
a trimmed sentence of only 16 characters and is discarded, yet the
pattern still yields a finding for the document, taken from the second
match — the claim that the pattern then yields no finding is false. -/
theorem detect_uses_later_match_cex :
    finditer c3Pattern (c3Text.map Char.toLower) = [(3, 16), (27, 40)] ∧
    (sentenceFor c3Text (3, 16)).length ≤ 20 ∧
    detect_risk_clauses c3Text =
      [{ text := "You must hold harmless the company at all times".toList,
         type := "Liability Waiver", severity := "High",
         explanation := "The company may not be responsible for damages or problems that occur." }] := by
  refine ⟨by decide, by decide, by decide⟩

/-- C3 (amended): for each pattern, the detector walks the matches of the pattern
in order, skipping every match whose trimmed sentence has length
`≤ 20`, and emits one finding built from the first match whose trimmed
sentence is longer than 20 characters (if any). -/
theorem patternFinding_skips_short (text text_lower : List Char) (info : RiskInfo)
    (p : List Tok)
    (h : ∃ sp ∈ finditer p text_lower, 20 < (sentenceFor text sp).length) :
    ∃ before sp after,
      finditer p text_lower = before ++ sp :: after ∧
      (∀ sp' ∈ before, (sentenceFor text sp').length ≤ 20) ∧
      20 < (sentenceFor text sp).length ∧
      patternFinding text text_lower info p =
        some { text := sentenceFor text sp, type := info.type, severity := info.severity,
               explanation := info.explanation } := by
  obtain ⟨b, sp, af, heq, hb, hl, hfq⟩ := firstQualifying_spec text _ h
  exact ⟨b, sp, af, heq, hb, hl, by simp only [patternFinding, hfq, Option.map_some']⟩

/-- Catalog entry used by the C3 witness. -/
def c3Info : RiskInfo :=
  { patterns := [c3Pattern], type := "Liability Waiver", severity := "High",
    explanation := "The company may not be responsible for damages or problems that occur." }

/-- Witness for the amended C3. -/
theorem patternFinding_skips_short_witness :
    (∃ sp ∈ finditer c3Pattern (c3Text.map Char.toLower),
        20 < (sentenceFor c3Text sp).length) ∧
    (∃ before sp after,
      finditer c3Pattern (c3Text.map Char.toLower) = before ++ sp :: after ∧
      (∀ sp' ∈ before, (sentenceFor c3Text sp').length ≤ 20) ∧
      20 < (sentenceFor c3Text sp).length ∧
      patternFinding c3Text (c3Text.map Char.toLower) c3Info c3Pattern =
        some { text := sentenceFor c3Text sp, type := c3Info.type,
               severity := c3Info.severity, explanation := c3Info.explanation }) :=
  ⟨by decide, patternFinding_skips_short c3Text (c3Text.map Char.toLower) c3Info c3Pattern
    (by decide)⟩

/-! ### C10 — distinct patterns of one category can duplicate findings -/

/-- A sentence matched by both "binding arbitration" and
"arbitration clause" of the binding_arbitration category. -/
def c10Text : List Char :=
  "This contract contains a binding arbitration clause for disputes.".toList

/-- The finding that both patterns emit for `c10Text`. -/
def c10Finding : Finding :=
  { text := "This contract contains a binding arbitration clause for disputes".toList,
    type := "Binding Arbitration", severity := "High",
    explanation := "You may be giving up your right to sue in court and must resolve disputes through arbitration." }

/-- C10: on `c10Text` the detector returns two findings with identical
category type and identical matched sentence, one from each of two
distinct patterns of the binding_arbitration category. -/
theorem detect_duplicate_type_and_sentence :
    detect_risk_clauses c10Text = [c10Finding, c10Finding] ∧
    c10Finding.type = "Binding Arbitration" := by
  refine ⟨by decide, rfl⟩

/-! ### C6 — empty and separator-only texts -/

/-- Characters that can appear in a text whose sentence split has no
non-whitespace fragment. -/
def wsOrSep (c : Char) : Bool := c.isWhitespace || isSentSep c

lemma toLower_eq_self_of_wsOrSep {c : Char} (h : wsOrSep c = true) : c.toLower = c := by
  simp only [wsOrSep, isSentSep, Char.isWhitespace, Bool.or_eq_true,
    decide_eq_true_eq] at h
  rcases h with ((((rfl | rfl) | rfl) | rfl) | ((rfl | rfl) | rfl)) <;> decide

lemma wsOrSep_toNat {c : Char} (h : wsOrSep c = true) : c.toNat < 97 := by
  simp only [wsOrSep, isSentSep, Char.isWhitespace, Bool.or_eq_true,
    decide_eq_true_eq] at h
  rcases h with ((((rfl | rfl) | rfl) | rfl) | ((rfl | rfl) | rfl)) <;> decide

/-- Does a pattern start with a literal lowercase letter?  Every catalog
pattern does. -/
def headIsLetterLit : List Tok → Bool
  | Tok.lit c :: _ => 97 ≤ c.toNat && c.toNat ≤ 122
  | _ => false

lemma toLower_eq_self_of_letter {c : Char} (h : 97 ≤ c.toNat) : c.toLower = c := by
  simp only [Char.toLower]
  rw [if_neg]
  omega

lemma matchEnd_none_of_wsOrSep {p : List Tok} (hp : headIsLetterLit p = true)
    {xs : List Char} (hxs : ∀ x ∈ xs, wsOrSep x = true) :
    matchEnd p xs = none := by
  match p, hp with
  | Tok.lit c :: ts, hp =>
    have hc : 97 ≤ c.toNat ∧ c.toNat ≤ 122 := by
      simpa [headIsLetterLit, Bool.and_eq_true, decide_eq_true_eq] using hp
    cases xs with
    | nil => rfl
    | cons x r =>
      have hx := hxs x (List.mem_cons_self x r)
      have hne : ¬ x.toLower = c.toLower := by
        intro heq
        rw [toLower_eq_self_of_wsOrSep hx, toLower_eq_self_of_letter hc.1] at heq
        subst heq
        have h1 := wsOrSep_toNat hx
        omega
      simp only [matchEnd, if_neg hne]

lemma findFrom_none {p : List Tok} (hp : headIsLetterLit p = true) {text : List Char}
    (h : ∀ x ∈ text, wsOrSep x = true) (pos : Nat) : findFrom p text pos = none := by
  unfold findFrom
  rw [List.findSome?_eq_none_iff]
  intro d _
  rw [matchEnd_none_of_wsOrSep hp (fun x hx => h x (List.drop_subset _ _ hx))]
  rfl

lemma finditer_nil {p : List Tok} (hp : headIsLetterLit p = true) {text : List Char}
    (h : ∀ x ∈ text, wsOrSep x = true) : finditer p text = [] := by
  unfold finditer finditerAux
  rw [findFrom_none hp h]

lemma catalog_headIsLetterLit :
    ∀ kri ∈ RISK_PATTERNS, ∀ p ∈ kri.2.patterns, headIsLetterLit p = true := by decide

lemma detect_nil_of_wsOrSep {text : List Char} (h : ∀ c ∈ text, wsOrSep c = true) :
    detect_risk_clauses text = [] := by
  have hlow : ∀ c ∈ text.map Char.toLower, wsOrSep c = true := by
    intro c hc
    rw [List.mem_map] at hc
    obtain ⟨a, ha, rfl⟩ := hc
    rw [toLower_eq_self_of_wsOrSep (h a ha)]
    exact h a ha
  simp only [detect_risk_clauses]
  rw [List.flatMap_eq_nil_iff]
  intro kri hk
  rw [List.filterMap_eq_nil_iff]
  intro p hp
  simp only [patternFinding]
  rw [finditer_nil (catalog_headIsLetterLit kri hk p hp) hlow]
  rfl

lemma splitSent_ne_nil : ∀ l : List Char, splitSent l ≠ [] := by
  intro l
  induction l with
  | nil => simp [splitSent]
  | cons c cs ih =>
    by_cases hc : isSentSep c = true
    · cases cs with
      | nil => simp [splitSent, hc]
      | cons c2 t =>
        by_cases h2 : isSentSep c2 = true
        · simpa [splitSent, hc, h2] using ih
        · simp [splitSent, hc, h2]
    · cases hs : splitSent cs with
      | nil => simp [splitSent, hc, hs]
      | cons hh tt => simp [splitSent, hc, hs]

lemma mem_splitSent {c : Char} {l : List Char} (hc : c ∈ l)
    (hns : isSentSep c = false) : ∃ s ∈ splitSent l, c ∈ s := by
  induction l with
  | nil => simp at hc
  | cons x cs ih =>
    rcases List.mem_cons.mp hc with rfl | hm
    · cases hs : splitSent cs with
      | nil => exact absurd hs (splitSent_ne_nil cs)
      | cons hh tt =>
        refine ⟨c :: hh, ?_, List.mem_cons_self _ _⟩
        simp [splitSent, hns, hs]
    · by_cases hx : isSentSep x = true
      · obtain ⟨s, hsmem, hcs⟩ := ih hm
        cases cs with
        | nil => simp at hm
        | cons c2 t =>
          by_cases h2 : isSentSep c2 = true
          · have heq : splitSent (x :: c2 :: t) = splitSent (c2 :: t) := by
              simp [splitSent, hx, h2]
            rw [heq]
            exact ⟨s, hsmem, hcs⟩
          · have heq : splitSent (x :: c2 :: t) = [] :: splitSent (c2 :: t) := by
              simp [splitSent, hx, h2]
            rw [heq]
            exact ⟨s, List.mem_cons_of_mem _ hsmem, hcs⟩
      · obtain ⟨s, hsmem, hcs⟩ := ih hm
        cases hs : splitSent cs with
        | nil => exact absurd hs (splitSent_ne_nil cs)
        | cons hh tt =>
          have heq : splitSent (x :: cs) = (x :: hh) :: tt := by
            simp [splitSent, hx, hs]
          rw [heq]
          rw [hs] at hsmem
          rcases List.mem_cons.mp hsmem with rfl | hmem
          · exact ⟨x :: s, List.mem_cons_self _ _, List.mem_cons_of_mem _ hcs⟩
          · exact ⟨s, List.mem_cons_of_mem _ hmem, hcs⟩

lemma strip_nil_ws {s : List Char} (h : strip s = []) :
    ∀ c ∈ s, c.isWhitespace = true := by
  intro c hc
  unfold strip at h
  rw [List.reverse_eq_nil_iff, List.dropWhile_eq_nil_iff] at h
  have hdrop : ∀ x ∈ s.dropWhile Char.isWhitespace, x.isWhitespace = true := by
    intro x hx
    exact h x (by rwa [List.mem_reverse])
  have hsplit := List.takeWhile_append_dropWhile (p := Char.isWhitespace) (l := s)
  rw [← hsplit, List.mem_append] at hc
  rcases hc with h1 | h2
  · exact List.mem_takeWhile_imp h1
  · exact hdrop c h2

lemma sentencesOf_nil_wsOrSep {text : List Char} (h : sentencesOf text = []) :
    ∀ c ∈ text, wsOrSep c = true := by
  intro c hc
  by_cases hsep : isSentSep c = true
  · simp [wsOrSep, hsep]
  · have hns : isSentSep c = false := by simpa using hsep
    obtain ⟨s, hs, hcs⟩ := mem_splitSent hc hns
    have hstrip : strip s = [] := by
      unfold sentencesOf at h
      rw [List.filter_eq_nil_iff] at h
      have hmem := h (strip s) (List.mem_map_of_mem _ hs)
      simpa using hmem
    have hws := strip_nil_ws hstrip c hcs
    simp [wsOrSep, hws]

/-- C6: on the empty string, and on any text whose sentence split yields
no non-whitespace fragment, `detect_risk_clauses` returns the empty
sequence and `calculate_complexity_score` returns exactly 1.0.  (Both
operations are total functions in this model, so no input can raise.) -/
theorem detect_and_complexity_on_empty :
    (detect_risk_clauses [] = [] ∧ calculate_complexity_score [] = 1) ∧
    ∀ text : List Char, sentencesOf text = [] →
      detect_risk_clauses text = [] ∧ calculate_complexity_score text = 1 := by
  have hgen : ∀ text : List Char, sentencesOf text = [] →
      detect_risk_clauses text = [] ∧ calculate_complexity_score text = 1 := by
    intro text h
    refine ⟨detect_nil_of_wsOrSep (sentencesOf_nil_wsOrSep h), ?_⟩
    simp only [calculate_complexity_score]
    rw [if_pos h]
  exact ⟨hgen [] (by decide), hgen⟩

/-- Witness for C6 on a separator-and-whitespace-only text. -/
theorem detect_and_complexity_on_empty_witness :
    sentencesOf " .!? ".toList = [] ∧
    (detect_risk_clauses " .!? ".toList = [] ∧
     calculate_complexity_score " .!? ".toList = 1) :=
  ⟨by decide, detect_and_complexity_on_empty.2 " .!? ".toList (by decide)⟩

/-! ### C8 — sentence extraction from the original text -/

lemma findIdxDot_some : ∀ {l : List Char} {j : Nat}, findIdxDot l = some j →
    l[j]? = some '.' ∧ ∀ k, k < j → l[k]? ≠ some '.' := by
  intro l
  induction l with
  | nil => intro j h; simp [findIdxDot] at h
  | cons c cs ih =>
    intro j h
    simp only [findIdxDot] at h
    by_cases hc : c = '.'
    · rw [if_pos hc, Option.some.injEq] at h
      subst h
      refine ⟨by simp [hc], ?_⟩
      intro k hk
      omega
    · rw [if_neg hc] at h
      cases hj : findIdxDot cs with
      | none => rw [hj] at h; simp at h
      | some j' =>
        rw [hj] at h
        simp only [Option.map_some', Option.some.injEq] at h
        subst h
        obtain ⟨h1, h2⟩ := ih hj
        refine ⟨by simpa using h1, ?_⟩
        intro k hk
        cases k with
        | zero => simp [hc]
        | succ k' => simpa using h2 k' (by omega)

lemma findIdxDot_none : ∀ {l : List Char}, findIdxDot l = none →
    ∀ k : Nat, l[k]? ≠ some '.' := by
  intro l
  induction l with
  | nil => intro _ k; simp
  | cons c cs ih =>
    intro h k
    simp only [findIdxDot] at h
    by_cases hc : c = '.'
    · rw [if_pos hc] at h; simp at h
    · rw [if_neg hc] at h
      cases hj : findIdxDot cs with
      | some j' => rw [hj] at h; simp at h
      | none =>
        cases k with
        | zero => simp [hc]
        | succ k' => simpa using ih hj k'

lemma rfindIdxDot_none : ∀ {l : List Char}, rfindIdxDot l = none →
    ∀ k : Nat, l[k]? ≠ some '.' := by
  intro l
  induction l with
  | nil => intro _ k; simp
  | cons c cs ih =>
    intro h k
    cases hj : rfindIdxDot cs with
    | some j => simp only [rfindIdxDot, hj] at h; simp at h
    | none =>
      simp only [rfindIdxDot, hj] at h
      by_cases hc : c = '.'
      · rw [if_pos hc] at h; simp at h
      · cases k with
        | zero => simp [hc]
        | succ k' => simpa using ih hj k'

lemma rfindIdxDot_some : ∀ {l : List Char} {i : Nat}, rfindIdxDot l = some i →
    l[i]? = some '.' ∧ ∀ k, i < k → l[k]? ≠ some '.' := by
  intro l
  induction l with
  | nil => intro i h; simp [rfindIdxDot] at h
  | cons c cs ih =>
    intro i h
    cases hj : rfindIdxDot cs with
    | some j =>
      simp only [rfindIdxDot, hj, Option.some.injEq] at h
      subst h
      obtain ⟨h1, h2⟩ := ih hj
      refine ⟨by simpa using h1, ?_⟩
      intro k hk
      cases k with
      | zero => omega
      | succ k' => simpa using h2 k' (by omega)
    | none =>
      simp only [rfindIdxDot, hj] at h
      by_cases hc : c = '.'
      · rw [if_pos hc, Option.some.injEq] at h
        subst h
        refine ⟨by simp [hc], ?_⟩
        intro k hk
        cases k with
        | zero => omega
        | succ k' => simpa using rfindIdxDot_none hj k'
      · rw [if_neg hc] at h; simp at h

/-- Step 3 of the detection algorithm, as the spec words it (backward
scan): `a` is the character position right after the nearest `'.'`
preceding offset `s` in `text`, or 0 when no `'.'` precedes it. -/
def isPrecedingDotStart (text : List Char) (s a : Nat) : Prop :=
  (a = 0 ∧ ∀ i, i < s → text[i]? ≠ some '.') ∨
  (∃ i, a = i + 1 ∧ i < s ∧ text[i]? = some '.' ∧
    ∀ j, i < j → j < s → text[j]? ≠ some '.')

/-- Step 3 of the detection algorithm, as the spec words it (forward
scan): `b` is the position of the nearest `'.'` at or after offset `e` in
`text`, or `text.length` when no `'.'` follows. -/
def isFollowingDotEnd (text : List Char) (e b : Nat) : Prop :=
  (b = text.length ∧ ∀ i, e ≤ i → text[i]? ≠ some '.') ∨
  (e ≤ b ∧ text[b]? = some '.' ∧ ∀ j, e ≤ j → j < b → text[j]? ≠ some '.')

lemma sentStart_spec (text : List Char) (s : Nat) :
    isPrecedingDotStart text s (sentStart text s) := by
  cases h : rfindIdxDot (text.take s) with
  | none =>
    have hss : sentStart text s = 0 := by simp only [sentStart, h]
    rw [hss]
    left
    refine ⟨rfl, ?_⟩
    intro i hi
    have hn := rfindIdxDot_none h i
    by_cases hlen : i < text.length
    · rwa [List.getElem?_take_of_lt hi] at hn
    · intro hcon
      rw [List.getElem?_eq_none (by omega : text.length ≤ i)] at hcon
      exact Option.noConfusion hcon
  | some i =>
    have hss : sentStart text s = i + 1 := by simp only [sentStart, h]
    rw [hss]
    right
    obtain ⟨h1, h2⟩ := rfindIdxDot_some h
    have hi_lt : i < s := by
      rw [List.getElem?_eq_some_iff] at h1
      have := h1.1
      rw [List.length_take] at this
      omega
    refine ⟨i, rfl, hi_lt, ?_, ?_⟩
    · rwa [List.getElem?_take_of_lt hi_lt] at h1
    · intro j hij hjs
      have hj := h2 j hij
      rwa [List.getElem?_take_of_lt hjs] at hj

lemma sentEnd_spec (text : List Char) (e : Nat) :
    isFollowingDotEnd text e (sentEnd text e) := by
  cases h : findIdxDot (text.drop e) with
  | none =>
    have hse : sentEnd text e = text.length := by simp only [sentEnd, h]
    rw [hse]
    left
    refine ⟨rfl, ?_⟩
    intro i hei
    have hn := findIdxDot_none h (i - e)
    rw [List.getElem?_drop, Nat.add_sub_cancel' hei] at hn
    exact hn
  | some j =>
    have hse : sentEnd text e = e + j := by simp only [sentEnd, h]
    rw [hse]
    right
    obtain ⟨h1, h2⟩ := findIdxDot_some h
    rw [List.getElem?_drop] at h1
    refine ⟨by omega, h1, ?_⟩
    intro k hek hkb
    have hk := h2 (k - e) (by omega)
    rwa [List.getElem?_drop, Nat.add_sub_cancel' hek] at hk

lemma sentStart_le (text : List Char) (s : Nat) : sentStart text s ≤ s := by
  cases h : rfindIdxDot (text.take s) with
  | none => simp only [sentStart, h]; exact Nat.zero_le _
  | some i =>
    have hss : sentStart text s = i + 1 := by simp only [sentStart, h]
    rw [hss]
    obtain ⟨h1, -⟩ := rfindIdxDot_some h
    rw [List.getElem?_eq_some_iff] at h1
    have := h1.1
    rw [List.length_take] at this
    omega

lemma sentEnd_ge (text : List Char) (e : Nat) (he : e ≤ text.length) :
    e ≤ sentEnd text e := by
  cases h : findIdxDot (text.drop e) with
  | none => have hse : sentEnd text e = text.length := by simp only [sentEnd, h]
            rw [hse]; exact he
  | some j => have hse : sentEnd text e = e + j := by simp only [sentEnd, h]
              rw [hse]; omega

lemma matchEnd_le_length : ∀ {p : List Tok} {xs : List Char} {n : Nat},
    matchEnd p xs = some n → n ≤ xs.length := by
  intro p
  induction p with
  | nil =>
    intro xs n h
    simp only [matchEnd, Option.some.injEq] at h
    omega
  | cons t ts ih =>
    intro xs n h
    cases t with
    | lit c =>
      cases xs with
      | nil => simp [matchEnd] at h
      | cons x r =>
        simp only [matchEnd] at h
        split_ifs at h with hx
        · cases hm : matchEnd ts r with
          | none => rw [hm] at h; simp at h
          | some m =>
            rw [hm] at h
            simp only [Option.map_some', Option.some.injEq] at h
            have := ih hm
            simp only [List.length_cons]
            omega
    | opt c =>
      cases xs with
      | nil =>
        simp only [matchEnd] at h
        simpa using ih h
      | cons x r =>
        simp only [matchEnd] at h
        split_ifs at h with hx
        · cases hm : matchEnd ts r with
          | some m =>
            rw [hm] at h
            rw [Option.some.injEq] at h
            have := ih hm
            simp only [List.length_cons]
            omega
          | none =>
            rw [hm] at h
            exact ih h
        · exact ih h
    | star =>
      simp only [matchEnd] at h
      obtain ⟨k, hk, hsome⟩ := List.exists_of_findSome?_eq_some h
      rw [List.mem_reverse, List.mem_range] at hk
      cases hm : matchEnd ts (xs.drop k) with
      | none => rw [hm] at hsome; simp at hsome
      | some m =>
        rw [hm] at hsome
        simp only [Option.map_some', Option.some.injEq] at hsome
        have hmle := ih hm
        rw [List.length_drop] at hmle
        have htw : (xs.takeWhile (fun c => c ≠ '\n')).length ≤ xs.length :=
          (List.takeWhile_prefix _).length_le
        omega

lemma findFrom_bounds {p : List Tok} {text : List Char} {pos s e : Nat}
    (h : findFrom p text pos = some (s, e)) : s ≤ e ∧ e ≤ text.length := by
  unfold findFrom at h
  obtain ⟨d, hd, hsome⟩ := List.exists_of_findSome?_eq_some h
  rw [List.mem_range] at hd
  cases hm : matchEnd p (text.drop (pos + d)) with
  | none => rw [hm] at hsome; simp at hsome
  | some n =>
    rw [hm] at hsome
    simp only [Option.map_some', Option.some.injEq, Prod.mk.injEq] at hsome
    obtain ⟨rfl, rfl⟩ := hsome
    have hn := matchEnd_le_length hm
    rw [List.length_drop] at hn
    omega

lemma finditerAux_bounds : ∀ {fuel pos : Nat} {p : List Tok} {text : List Char}
    {s e : Nat}, (s, e) ∈ finditerAux p text pos fuel → s ≤ e ∧ e ≤ text.length := by
  intro fuel
  induction fuel with
  | zero => intro pos p text s e h; simp [finditerAux] at h
  | succ f ih =>
    intro pos p text s e h
    cases hf : findFrom p text pos with
    | none => simp only [finditerAux, hf] at h; simp at h
    | some se =>
      obtain ⟨s', e'⟩ := se
      simp only [finditerAux, hf] at h
      rcases List.mem_cons.mp h with heq | hm
      · rw [Prod.mk.injEq] at heq
        obtain ⟨rfl, rfl⟩ := heq
        exact findFrom_bounds hf
      · exact ih hm

lemma finditer_bounds {p : List Tok} {text : List Char} {s e : Nat}
    (h : (s, e) ∈ finditer p text) : s ≤ e ∧ e ≤ text.length :=
  finditerAux_bounds h

/-- C8: every finding emitted by `detect_risk_clauses` carries the
trimmed slice of the original (un-lowercased) text running from the
character after the nearest `'.'` preceding the match start (or the
start of the document) up to the nearest `'.'` following the match end
(or the end of the document), where the match span itself comes from
matching on the lowercased text. -/
theorem detect_sentence_from_original_span (text : List Char) (f : Finding)
    (h : f ∈ detect_risk_clauses text) :
    ∃ kri ∈ RISK_PATTERNS, ∃ p ∈ kri.2.patterns,
      ∃ sp ∈ finditer p (text.map Char.toLower),
        ∃ a b, isPrecedingDotStart text sp.1 a ∧ isFollowingDotEnd text sp.2 b ∧
          a ≤ sp.1 ∧ sp.2 ≤ b ∧ f.text = strip (extract text a b) := by
  obtain ⟨kri, hk, p, hp, hpf⟩ := mem_detect h
  simp only [patternFinding, Option.map_eq_some'] at hpf
  obtain ⟨sent, hq, hf⟩ := hpf
  obtain ⟨sp, hsp, hs, -⟩ := firstQualifying_eq_some hq
  obtain ⟨s, e⟩ := sp
  have hbounds := finditer_bounds hsp
  rw [List.length_map] at hbounds
  refine ⟨kri, hk, p, hp, (s, e), hsp, sentStart text s, sentEnd text e,
    sentStart_spec text s, sentEnd_spec text e, sentStart_le text s,
    sentEnd_ge text e (by omega), ?_⟩
  rw [← hf]
  exact hs

/-- Concrete text for the C8 witness. -/
def c8Text : List Char := "You agree to binding arbitration in all cases.".toList

/-- Concrete finding for the C8 witness. -/
def c8Finding : Finding :=
  { text := "You agree to binding arbitration in all cases".toList,
    type := "Binding Arbitration", severity := "High",
    explanation := "You may be giving up your right to sue in court and must resolve disputes through arbitration." }

/-- Witness for C8. -/
theorem detect_sentence_from_original_span_witness :
    c8Finding ∈ detect_risk_clauses c8Text ∧
    (∃ kri ∈ RISK_PATTERNS, ∃ p ∈ kri.2.patterns,
      ∃ sp ∈ finditer p (c8Text.map Char.toLower),
        ∃ a b, isPrecedingDotStart c8Text sp.1 a ∧ isFollowingDotEnd c8Text sp.2 b ∧
          a ≤ sp.1 ∧ sp.2 ≤ b ∧ c8Finding.text = strip (extract c8Text a b)) :=
  ⟨by decide, detect_sentence_from_original_span c8Text c8Finding (by decide)⟩

end SnapLaw
